import Mathlib

/-!
Verification development for a single-endpoint stock-analysis aggregation
service (`api/index.py`).  The service resolves a free-text company name to a
ticker (`search_ticker`), fetches a financial snapshot (`get_stock_data`),
gathers categorized news via a scraped web search (`web_search`), and merges
everything in one HTTP handler (`analyze_company`).

The embedding is shallow: upstream I/O (HTTP requests, the finance-data
client, the HTML parser) is replaced by explicit inputs describing what the
upstream produced, and every pure computation of the Python code is translated
into an executable Lean function.  Python dictionaries with optional fields
become association lists over `PyVal`; Python exceptions become `Except`;
Python numbers are modelled as exact rationals `ℚ`.
-/

/-- A Python value as it appears in the upstream JSON / yfinance metadata
maps: either `None`, a string, or a number (modelled as an exact rational). -/
inductive PyVal where
  | none
  | str (s : String)
  | num (q : ℚ)
  deriving DecidableEq

/-- The yfinance `info` metadata map: keys to Python values.  A key that is
absent from the list models a key absent from the dict; a key mapped to
`PyVal.none` models a key present with value `None`. -/
def Info : Type := List (String × PyVal)

instance : DecidableEq Info := by
  unfold Info
  infer_instance

/-- Python `d.get(k, default)`: the stored value when the key is present
(even when that value is `None`), otherwise the default. -/
def pyGetD (info : Info) (k : String) (d : PyVal) : PyVal :=
  match List.lookup k info with
  | some v => v
  | Option.none => d

/-- Python `d.get(k)`: the stored value when present, else `None`. -/
def pyGet (info : Info) (k : String) : PyVal :=
  pyGetD info k PyVal.none

/-- One step of Python `str.title()` over the characters: an alphabetic
character is uppercased when it follows a non-alphabetic character (or the
start) and lowercased otherwise.  ASCII case mapping suffices for the
recommendation keys handled by the service. -/
def pyTitleAux : Bool → List Char → List Char
  | _, [] => []
  | prevCased, c :: cs =>
    if c.isAlpha then
      (if prevCased then c.toLower else c.toUpper) :: pyTitleAux true cs
    else
      c :: pyTitleAux false cs

/-- Python `s.title()`. -/
def pyTitle (s : String) : String :=
  String.mk (pyTitleAux false s.data)

/-- Python `str(v)` as used inside the f-string for the 52-week range.  Only
the `None` and string cases are exercised by the claims; the float `repr` of a
number is abstracted to the rational's representation. -/
def pyStrOf : PyVal → String
  | PyVal.none => "None"
  | PyVal.str s => s
  | PyVal.num q => toString q

/-- A calendar date as produced by `index.date()` on a pandas timestamp.
Python `datetime.date` guarantees `1 ≤ year ≤ 9999`. -/
structure PyDate where
  year : Nat
  month : Nat
  day : Nat
  deriving DecidableEq

/-- Python's `str(datetime.date(y, m, d))`: `YYYY-MM-DD` with zero padding
(year to four digits, month and day to two). -/
def isoDateChars (d : PyDate) : List Char :=
  [Nat.digitChar (d.year / 1000 % 10), Nat.digitChar (d.year / 100 % 10),
   Nat.digitChar (d.year / 10 % 10), Nat.digitChar (d.year % 10), '-',
   Nat.digitChar (d.month / 10 % 10), Nat.digitChar (d.month % 10), '-',
   Nat.digitChar (d.day / 10 % 10), Nat.digitChar (d.day % 10)]

/-- Rendering `str(index.date())` as a Lean string. -/
def isoDateStr (d : PyDate) : String :=
  String.mk (isoDateChars d)

/-- Round a rational to the nearest integer, ties to even — the rounding of
Python's builtin `round`. -/
def roundHalfEven (q : ℚ) : ℤ :=
  let f := ⌊q⌋
  let r := q - (f : ℚ)
  if r < 1/2 then f
  else if 1/2 < r then f + 1
  else if f % 2 = 0 then f else f + 1

/-- Python `round(x, 2)` on the exact rational model. -/
def pyRound2 (q : ℚ) : ℚ :=
  ((roundHalfEven (q * 100) : ℤ) : ℚ) / 100

/-- One row of the yfinance history frame: the trading day and its closing
price. -/
structure Row where
  date : PyDate
  close : ℚ
  deriving DecidableEq

/-- A Python exception raised by the parsing / projection code (network
errors are modelled separately, as the `Except.error` side of an upstream
response). -/
inductive PyErr where
  | keyError
  | attributeError
  deriving DecidableEq

/-- The dictionary returned by `get_stock_data` on success, as a structure:
the Python code always populates every key, so each field is total.  String
fields hold whatever `info.get` produced (hence `PyVal`). -/
structure Snapshot where
  ticker : String
  company_name : PyVal
  exchange : PyVal
  sector : PyVal
  industry : PyVal
  summary : PyVal
  current_price : PyVal
  market_cap : PyVal
  fifty_two_week_range : String
  pe_ratio : PyVal
  eps : PyVal
  dividend_yield : PyVal
  recommendation : String
  target_mean_price : PyVal
  historical_prices : List (String × ℚ)
  deriving DecidableEq

/-- The projection of the history rows performed by the list comprehension in
`get_stock_data`: `(str(index.date()), round(row.Close, 2))` per row, in
source order. -/
def histProj (hist : List Row) : List (String × ℚ) :=
  hist.map (fun r => (isoDateStr r.date, pyRound2 r.close))

/-- Python `s.split(sep)` for a non-empty separator: left-to-right scan
consuming non-overlapping occurrences, with an explicit fuel bounding the
number of scan steps (each step consumes at least one character, so a fuel of
`s.length` is always enough).  The split always returns at least one piece.
(For an empty separator Python raises; the service only splits on the literal
separators `"/l/?uddg="` and `"&rut="`.) -/
def pySplitF (sep : List Char) : Nat → List Char → List (List Char)
  | _, [] => [[]]
  | 0, s => [s]
  | fuel + 1, c :: cs =>
    if sep ≠ [] ∧ sep.isPrefixOf (c :: cs) then
      [] :: pySplitF sep fuel ((c :: cs).drop sep.length)
    else
      match pySplitF sep fuel cs with
      | [] => [[c]]
      | p :: rest => (c :: p) :: rest

/-- Python `s.split(sep)` proper: the fuel `s.length` always suffices, since
every recursive step of the scan consumes at least one character. -/
def pySplit (sep s : List Char) : List (List Char) :=
  pySplitF sep s.length s

/-- Python `s.replace(old, new)` for a non-empty `old`: equivalent to
`new.join(s.split(old))`. -/
def pyReplace (s old new : List Char) : List Char :=
  List.intercalate new (pySplit old s)

/-- Model of `get_stock_data(ticker)` from `api/index.py`.  `fetched` stands for what
the yfinance calls produced: an exception, or the `info` map together with the
history rows.  The function returns `None` when the upstream raised (the
`except Exception` arm), when the validity check fails (`not info or
info.get('trailingPE') is None`), or when building the result dict raises —
the only raising spot reachable in the model is `.replace` on a non-string
`recommendationKey` value (an `AttributeError`, also swallowed by the
`except Exception` arm). -/
def get_stock_data (ticker : String) (fetched : Except PyErr (Info × List Row)) :
    Option Snapshot :=
  match fetched with
  | Except.error _ => Option.none
  | Except.ok (info, hist) =>
    if info = [] ∨ pyGet info ("trailingPE") = PyVal.none then Option.none
    else
      match pyGetD info ("recommendationKey") (PyVal.str ("N/A")) with
      | PyVal.str recKey =>
        some {
          ticker := ticker
          company_name := pyGetD info ("longName") (PyVal.str ("N/A"))
          exchange := pyGetD info ("exchange") (PyVal.str ("N/A"))
          sector := pyGetD info ("sector") (PyVal.str ("N/A"))
          industry := pyGetD info ("industry") (PyVal.str ("N/A"))
          summary := pyGetD info ("longBusinessSummary") (PyVal.str ("N/A"))
          current_price := pyGet info ("currentPrice")
          market_cap := pyGet info ("marketCap")
          fifty_two_week_range :=
            pyStrOf (pyGet info ("fiftyTwoWeekLow")) ++ " - " ++
              pyStrOf (pyGet info ("fiftyTwoWeekHigh"))
          pe_ratio := pyGet info ("trailingPE")
          eps := pyGet info ("trailingEps")
          dividend_yield := pyGet info ("dividendYield")
          recommendation := pyTitle (String.mk (pyReplace recKey.data ("_").data (" ").data))
          target_mean_price := pyGet info ("targetMeanPrice")
          historical_prices := histProj hist }
      | _ => Option.none

/-- Value of one hexadecimal digit, when the character is one. -/
def hexDigitVal (c : Char) : Option Nat :=
  if c.isDigit then some (c.toNat - 48)
  else if ('a' ≤ c ∧ c ≤ 'f') then some (c.toNat - 87)
  else if ('A' ≤ c ∧ c ≤ 'F') then some (c.toNat - 55)
  else Option.none

/-- Python `urllib.parse.unquote`, modelled at character level: each valid
`%XY` escape becomes the character with code `16*X + Y`, invalid escapes are
left untouched.  (Python decodes escape runs as UTF-8 bytes; for the ASCII
escapes appearing in the redirect links the two agree.) -/
def pctDecode : List Char → List Char
  | [] => []
  | '%' :: a :: b :: rest =>
    match hexDigitVal a, hexDigitVal b with
    | some x, some y => Char.ofNat (x * 16 + y) :: pctDecode rest
    | _, _ => '%' :: pctDecode (a :: b :: rest)
  | c :: cs => c :: pctDecode cs

/-- The literal separator `'/l/?uddg='` used to strip the DuckDuckGo redirect
wrapper. -/
def uddgSep : List Char := ("/l/?uddg=").data

/-- The literal separator `'&rut='` used to strip the trailing tracking
parameter. -/
def rutSep : List Char := ("&rut=").data

/-- The link clean-up in `web_search`:
`unquote(raw_link.split('/l/?uddg=')[-1].split('&rut=')[0])`. -/
def cleanLink (rawLink : String) : String :=
  String.mk (pctDecode
    ((pySplit rutSep ((pySplit uddgSep rawLink.data).getLastD [])).headD []))

/-- An `<a class="result__a">` element as the scraper sees it: its text and
its optional `href` attribute (an anchor without `href` makes
`link_tag['href']` raise `KeyError`). -/
structure Anchor where
  text : String
  href : Option String
  deriving DecidableEq

/-- One `.result` element of the parsed search page.  `anchor` models
`select_one('.result__a')` (used for both `title_tag` and `link_tag`),
`snippet` models `select_one('.result__snippet')`; `Option.none` means the
selector found nothing. -/
structure RElem where
  anchor : Option Anchor
  snippet : Option String
  deriving DecidableEq

/-- One structured search result appended by `web_search`. -/
structure Item where
  title : String
  link : String
  snippet : String
  deriving DecidableEq

/-- The result-extraction loop of `web_search` over the (already truncated)
result elements: elements missing the anchor or the snippet are skipped;
an anchor without `href` raises `KeyError`, which aborts the whole call with
all partial results lost (the `except` clause of `web_search` only catches
`requests.exceptions.RequestException`, so this error escapes). -/
def extractLoop : List RElem → Except PyErr (List Item)
  | [] => Except.ok []
  | r :: rs =>
    match r.anchor, r.snippet with
    | some a, some sn =>
      match a.href with
      | some h =>
        match extractLoop rs with
        | Except.ok items =>
          Except.ok ({ title := a.text, link := cleanLink h, snippet := sn } :: items)
        | Except.error e => Except.error e
      | Option.none => Except.error PyErr.keyError
    | _, _ => extractLoop rs

/-- Model of `web_search(query, num_results)` from `api/index.py`.  `net` stands for
the outcome of the HTTP request plus HTML parse: `Except.error ()` models a
raised `requests.exceptions.RequestException` (caught: the function returns
`[]`), `Except.ok elems` the parsed `.result` elements of the page.  Only the
first `num_results` elements are inspected (`soup.select('.result')[:num_results]`). -/
def web_search (net : Except Unit (List RElem)) (num_results : Nat) :
    Except PyErr (List Item) :=
  match net with
  | Except.error _ => Except.ok []
  | Except.ok elems => extractLoop (elems.take num_results)

/-- difflib `SequenceMatcher.__chain_b`, first stage: the ascending list of
positions of each element in `b`. -/
def b2jRaw (b : List Char) (c : Char) : List Nat :=
  b.enum.filterMap (fun p => if p.2 = c then some p.1 else Option.none)

/-- difflib `SequenceMatcher.__chain_b` with `isjunk = None` and the default
`autojunk = True`: for `len(b) ≥ 200`, elements occurring in more than
`len(b) // 100 + 1` positions are "popular" and dropped from the index. -/
def b2j (b : List Char) (c : Char) : List Nat :=
  if b.length ≥ 200 ∧ (b2jRaw b c).length > b.length / 100 + 1 then []
  else b2jRaw b c

/-- The inner loop of `find_longest_match` for one row `i`: fold over the
ascending index list `b2j[a[i]]`, skipping `j < blo` (`continue`) and
`j ≥ bhi` (`break`; equivalent to skipping since the indices ascend),
reading run lengths from the previous row `oldj2` and building the new row.
The accumulator is `(newj2len, (besti, bestj, bestsize))`. -/
def flmRow (oldj2 : List (Nat × Nat)) (i blo bhi : Nat) (js : List Nat)
    (best : Nat × Nat × Nat) : List (Nat × Nat) × (Nat × Nat × Nat) :=
  js.foldl
    (fun acc j =>
      if j < blo ∨ bhi ≤ j then acc
      else
        let k := (if j = 0 then 0 else (oldj2.lookup (j - 1)).getD 0) + 1
        ((j, k) :: acc.1,
          if k > acc.2.2.2 then (i + 1 - k, j + 1 - k, k) else acc.2))
    ([], best)

/-- The dynamic-programming core of difflib `find_longest_match`: one
`flmRow` per `i` in `range(alo, ahi)`, threading the previous row and the
best block found so far (initially `(alo, blo, 0)`). -/
def flmMain (a : List Char) (bj : Char → List Nat) (alo ahi blo bhi : Nat) :
    Nat × Nat × Nat :=
  ((List.range' alo (ahi - alo)).foldl
    (fun acc i => flmRow acc.1 i blo bhi (bj (a.getD i (Char.ofNat 0))) acc.2)
    ([], (alo, blo, 0))).2

/-- First extension loop of `find_longest_match`: grow the best block
downwards while the adjacent elements are equal (the `not isbjunk(...)` test
is vacuously true with `isjunk = None`).  Structural fuel: `besti` bounds the
number of iterations. -/
def extendLow (a b : List Char) (alo blo : Nat) :
    Nat → Nat × Nat × Nat → Nat × Nat × Nat
  | 0, st => st
  | fuel + 1, (besti, bestj, bestsize) =>
    if alo < besti ∧ blo < bestj ∧
        a.get? (besti - 1) = b.get? (bestj - 1) ∧
        (a.get? (besti - 1)).isSome = true then
      extendLow a b alo blo fuel (besti - 1, bestj - 1, bestsize + 1)
    else (besti, bestj, bestsize)

/-- Second extension loop of `find_longest_match`: grow the best block
upwards while the adjacent elements are equal.  Fuel: `ahi` bounds the number
of iterations. -/
def extendHigh (a b : List Char) (ahi bhi : Nat) :
    Nat → Nat × Nat × Nat → Nat × Nat × Nat
  | 0, st => st
  | fuel + 1, (besti, bestj, bestsize) =>
    if besti + bestsize < ahi ∧ bestj + bestsize < bhi ∧
        a.get? (besti + bestsize) = b.get? (bestj + bestsize) ∧
        (a.get? (besti + bestsize)).isSome = true then
      extendHigh a b ahi bhi fuel (besti, bestj, bestsize + 1)
    else (besti, bestj, bestsize)

/-- difflib `find_longest_match` with `isjunk = None`: the DP core followed
by the two extension loops.  (The remaining two junk-extension loops of the
original require `isbjunk` to hold of some element and are the identity when
the junk set is empty, as it is here.) -/
def find_longest_match (a b : List Char) (bj : Char → List Nat)
    (alo ahi blo bhi : Nat) : Nat × Nat × Nat :=
  let m := flmMain a bj alo ahi blo bhi
  extendHigh a b ahi bhi ahi (extendLow a b alo blo m.1 m)

/-- The queue loop of difflib `get_matching_blocks`, accumulating the total
size of all matching blocks (the only datum `ratio` consumes; the final sort
and merge of the block list do not change the sum).  `queue.pop()` pops the
most recently pushed interval, so the queue is a stack with its top at the
head.  The fuel bounds the number of pops; each popped interval either ends a
branch or splits into strictly smaller ones, so `2*(|a|+|b|)+4` suffices. -/
def gmbGo (a b : List Char) (bj : Char → List Nat) :
    Nat → List (Nat × Nat × Nat × Nat) → Nat → Nat
  | _, [], acc => acc
  | 0, _, acc => acc
  | fuel + 1, (alo, ahi, blo, bhi) :: rest, acc =>
    let x := find_longest_match a b bj alo ahi blo bhi
    if x.2.2 = 0 then gmbGo a b bj fuel rest acc
    else
      let q1 : List (Nat × Nat × Nat × Nat) :=
        if alo < x.1 ∧ blo < x.2.1 then [(alo, x.1, blo, x.2.1)] else []
      let q2 : List (Nat × Nat × Nat × Nat) :=
        if x.1 + x.2.2 < ahi ∧ x.2.1 + x.2.2 < bhi then
          [(x.1 + x.2.2, ahi, x.2.1 + x.2.2, bhi)] else []
      gmbGo a b bj fuel (q2 ++ q1 ++ rest) (acc + x.2.2)

/-- Total size of the matching blocks of `a` against `b`. -/
def matchingTotal (a b : List Char) : Nat :=
  gmbGo a b (b2j b) (2 * (a.length + b.length) + 4) [(0, a.length, 0, b.length)] 0

/-- difflib `_calculate_ratio`: `2.0 * matches / length` when the combined
length is nonzero, else `1.0`.  Exact rationals stand in for floats. -/
def calcRatio (m len : Nat) : ℚ :=
  if len ≠ 0 then 2 * (m : ℚ) / (len : ℚ) else 1

/-- difflib `SequenceMatcher.ratio()` for sequences `a` (seq1) and `b`
(seq2). -/
def ratioOf (a b : List Char) : ℚ :=
  calcRatio (matchingTotal a b) (a.length + b.length)

/-- The `matches` count of difflib `quick_ratio`: walk `a`, decrementing an
availability map seeded from the multiset of `b`. -/
def quickMatches (a b : List Char) : Nat :=
  (a.foldl
    (fun (st : List (Char × Int) × Nat) elt =>
      let numb : Int :=
        match st.1.lookup elt with
        | some v => v
        | Option.none => ((b.count elt : Nat) : Int)
      ((elt, numb - 1) :: st.1, if numb > 0 then st.2 + 1 else st.2))
    ([], 0)).2

/-- difflib `quick_ratio`. -/
def quickRatioOf (a b : List Char) : ℚ :=
  calcRatio (quickMatches a b) (a.length + b.length)

/-- difflib `real_quick_ratio`. -/
def realQuickRatioOf (a b : List Char) : ℚ :=
  calcRatio (min a.length b.length) (a.length + b.length)

/-- Python string `<`: lexicographic comparison of code points, a proper
prefix being smaller. -/
def pyLexLtChars : List Char → List Char → Bool
  | [], [] => false
  | [], _ :: _ => true
  | _ :: _, [] => false
  | a :: as, b :: bs => if a = b then pyLexLtChars as bs else decide (a < b)

/-- Python `<` on the `(score, name)` pairs that `get_close_matches` sorts:
tuple comparison, score first. -/
def pairLt (x y : ℚ × List Char) : Bool :=
  if x.1 < y.1 then true
  else if x.1 = y.1 then pyLexLtChars x.2 y.2
  else false

/-- Insert into a descending-sorted list, after all entries `≥` the new one
(so that the overall sort is stable). -/
def insertDesc (lt : α → α → Bool) (x : α) : List α → List α
  | [] => [x]
  | y :: ys => if lt y x then x :: y :: ys else y :: insertDesc lt x ys

/-- Model of `heapq.nlargest n xs`, per its documented semantics
`sorted(xs, reverse=True)[:n]` with a stable sort (ties keep their original
order). -/
def nlargest (lt : α → α → Bool) (n : Nat) (xs : List α) : List α :=
  (xs.foldl (fun acc x => insertDesc lt x acc) []).take n

/-- difflib `get_close_matches(word, possibilities, n, cutoff)`: keep the
candidates whose three ratio bounds all reach the cutoff, then the `n`
largest by `(ratio, candidate)` tuple order.  The Python float cutoff `0.6`
is the exact rational `3/5` here. -/
def get_close_matches (word : List Char) (possibilities : List (List Char))
    (n : Nat) (cutoff : ℚ) : List (List Char) :=
  let result := possibilities.filterMap (fun x =>
    if realQuickRatioOf x word ≥ cutoff ∧ quickRatioOf x word ≥ cutoff ∧
        ratioOf x word ≥ cutoff
    then some (ratioOf x word, x) else Option.none)
  (nlargest pairLt n result).map (fun p => p.2)

/-- One quote object of the Yahoo search response.  A field holds
`Option.none` when the key is absent (or `None`). -/
structure Quote where
  longname : Option String
  shortname : Option String
  symbol : Option String
  deriving DecidableEq

/-- Python `q.get('longname') or q.get('shortname', '')`: the `or` takes the
right operand when the left is `None` or the empty string. -/
def namesEntry (q : Quote) : String :=
  match q.longname with
  | some s => if s ≠ "" then s else q.shortname.getD ("")
  | Option.none => q.shortname.getD ("")

/-- Python `quote.get('longname') or quote.get('shortname')` from the symbol-lookup
loop (no `''` default on the short name there). -/
def loopName (q : Quote) : Option String :=
  match q.longname with
  | some s => if s ≠ "" then some s else q.shortname
  | Option.none => q.shortname

/-- Model of `search_ticker(company_name)` from `api/index.py`.  `resp` stands for the
outcome of the search request: `Except.error ()` models a raised
`requests.exceptions.RequestException` (caught: the function returns `None`),
`Except.ok quotes` the decoded `quotes` list.  Empty quotes give `None`;
otherwise the best fuzzy match over the candidate names (cutoff `0.6`) picks
the symbol, defaulting to the first quote's symbol when no candidate clears
the cutoff or when the matched name belongs to no quote. -/
def search_ticker (resp : Except Unit (List Quote)) (company_name : String) :
    Option String :=
  match resp with
  | Except.error _ => Option.none
  | Except.ok quotes =>
    match quotes with
    | [] => Option.none
    | q0 :: _ =>
      let names := quotes.map (fun q => (namesEntry q).data)
      match get_close_matches company_name.data names 1 (3/5) with
      | [] => q0.symbol
      | best :: _ =>
        match quotes.find? (fun q => loopName q == some (String.mk best)) with
        | some q => q.symbol
        | Option.none => q0.symbol

/-- What the upstream services return during one request: the ticker-search
response, the yfinance data per ticker, and the parsed search page per query
string.  `Except.error` on the outside of each models a raised
`requests.exceptions.RequestException` (network failure / bad HTTP status);
the inner values model what was successfully fetched and parsed. -/
structure Env where
  search : Except Unit (List Quote)
  stock : String → Except PyErr (Info × List Row)
  web : String → Except Unit (List RElem)

/-- The outcome of one `GET /api/analyze` request as the HTTP framework sees
it: a deliberate `HTTPException` (status, detail), a JSON response, or an
exception that escaped the handler uncaught. -/
inductive AnalyzeResult where
  | httpError (status : Nat) (detail : String)
  | ok (query : String) (financial_data : Snapshot)
      (company_news financial_news investor_relations market_outlook : List Item)
  | uncaught (e : PyErr)
  deriving DecidableEq

/-- Python `stock_data.get('company_name', company_name)`: the snapshot dict built
by `get_stock_data` always contains the `company_name` key, so the fallback
to the caller's `company_name` is dead; the value is turned into the query
text the way the f-strings do (a string value stands for itself). -/
def officialNameOf (sd : Snapshot) : String :=
  match sd.company_name with
  | PyVal.str s => s
  | v => pyStrOf v

/-- Step 4 of `analyze_company`: the four categorized `web_search` calls,
each built from the official name, and the final merge.  A `PyErr` escaping
`web_search` escapes the handler (`uncaught`). -/
def newsPhase (env : Env) (company_name : String) (stock_data : Snapshot)
    (official_name : String) : AnalyzeResult :=
  match web_search (env.web ("news about " ++ official_name)) 5 with
  | Except.error e => AnalyzeResult.uncaught e
  | Except.ok company_news =>
    match web_search (env.web (official_name ++ " financial news OR earnings")) 5 with
    | Except.error e => AnalyzeResult.uncaught e
    | Except.ok financial_news =>
      match web_search (env.web ("investors of " ++ official_name ++ " OR shareholder updates")) 5 with
      | Except.error e => AnalyzeResult.uncaught e
      | Except.ok investor_relations =>
        match web_search (env.web (official_name ++ " market analysis and future outlook")) 5 with
        | Except.error e => AnalyzeResult.uncaught e
        | Except.ok market_outlook =>
          AnalyzeResult.ok company_name stock_data company_news
            financial_news investor_relations market_outlook

/-- Model of `analyze_company(company_name)` from `api/index.py`: reject the empty
name with 400; resolve the ticker (404 on failure, where Python truthiness
makes `None` and `''` both count as failure); fetch the financial snapshot
(404 on failure); then run the four categorized `web_search` calls and merge. -/
def analyze_company (env : Env) (company_name : String) : AnalyzeResult :=
  if company_name = "" then
    AnalyzeResult.httpError 400 "Company name cannot be empty."
  else
    let notFound := AnalyzeResult.httpError 404
      ("Could not find a stock ticker for '" ++ company_name ++ "'.")
    match search_ticker env.search company_name with
    | Option.none => notFound
    | some ticker =>
      if ticker = "" then notFound
      else
        match get_stock_data ticker (env.stock ticker) with
        | Option.none => AnalyzeResult.httpError 404
            ("Could not retrieve financial data for ticker '" ++ ticker ++
              "'. The company might be delisted or data is unavailable.")
        | some stock_data =>
          newsPhase env company_name stock_data (officialNameOf stock_data)

/-- Numeric sort key of a date: lexicographic in (year, month, day). -/
def dateKey (d : PyDate) : Nat :=
  d.year * 10000 + d.month * 100 + d.day

/-- Gregorian leap year, as `datetime` computes it. -/
def isLeap (y : Nat) : Bool :=
  y % 4 = 0 && (y % 100 ≠ 0 || y % 400 = 0)

/-- Days in a month of the proleptic Gregorian calendar. -/
def daysInMonth (y m : Nat) : Nat :=
  if m = 2 then (if isLeap y then 29 else 28)
  else if m = 4 ∨ m = 6 ∨ m = 9 ∨ m = 11 then 30
  else 31

/-- A valid `datetime.date`: the year range `1..9999` is the invariant of
Python's `datetime` module. -/
def validDate (d : PyDate) : Bool :=
  1 ≤ d.year && d.year ≤ 9999 && 1 ≤ d.month && d.month ≤ 12 &&
    1 ≤ d.day && d.day ≤ daysInMonth d.year d.month

/-- Numeric value of a decimal digit character. -/
def digitVal (c : Char) : Nat :=
  c.toNat - 48

/-- Checks that a string is a valid ISO-8601 calendar date `YYYY-MM-DD`:
exactly ten characters, digits and dashes in place, and the fields denote a
real calendar day. -/
def isValidISODateStr (s : String) : Bool :=
  match s.data with
  | [a, b, c, d, s1, e, f, s2, g, h] =>
    decide (s1 = '-') && decide (s2 = '-') &&
    a.isDigit && b.isDigit && c.isDigit && d.isDigit &&
    e.isDigit && f.isDigit && g.isDigit && h.isDigit &&
    validDate
      { year := digitVal a * 1000 + digitVal b * 100 + digitVal c * 10 + digitVal d,
        month := digitVal e * 10 + digitVal f,
        day := digitVal g * 10 + digitVal h }
  | _ => false

/-- The four zero-padded decimal digits of a year (values below 10000). -/
def dig4 (n : Nat) : List Char :=
  [Nat.digitChar (n / 1000 % 10), Nat.digitChar (n / 100 % 10),
   Nat.digitChar (n / 10 % 10), Nat.digitChar (n % 10)]

/-- The two zero-padded decimal digits of a month or day (values below 100). -/
def dig2 (n : Nat) : List Char :=
  [Nat.digitChar (n / 10 % 10), Nat.digitChar (n % 10)]

/-- Lexicographic `≤` on character lists by code point (the order Python and
JSON consumers use on the ISO date strings). -/
def lexLeB : List Char → List Char → Bool
  | [], _ => true
  | _ :: _, [] => false
  | a :: as, b :: bs => if a = b then lexLeB as bs else decide (a < b)

/-- Lexicographic `≤` on strings. -/
def strLeB (s t : String) : Bool :=
  lexLeB s.data t.data

deriving instance DecidableEq for Except

/-- The item `web_search` extracts from one complete result element
(`Option.none` when the element is skipped as partial; the `KeyError` case of
a missing `href` is handled by `extractLoop`). -/
def itemOf (r : RElem) : Option Item :=
  match r.anchor, r.snippet with
  | some a, some sn =>
    match a.href with
    | some h => some { title := a.text, link := cleanLink h, snippet := sn }
    | Option.none => Option.none
  | _, _ => Option.none

/-- A result element carrying all three of title/link anchor (with `href`)
and snippet. -/
def completeElem (r : RElem) : Bool :=
  match r.anchor, r.snippet with
  | some a, some _ => a.href.isSome
  | _, _ => false

/-- A concrete two-trading-day history window. -/
def histW : List Row :=
  [{ date := { year := 2024, month := 1, day := 5 }, close := 123/100 },
   { date := { year := 2024, month := 1, day := 8 }, close := 7/2 }]

/-- The DuckDuckGo host prefix carried by wrapped result links. -/
def ddgChars : List Char := ("//duckduckgo.com").data

/-- Concrete quote: long name `Foo`, symbol `FOO`. -/
def quoteFoo : Quote :=
  { longname := some ("Foo"), shortname := Option.none, symbol := some ("FOO") }

/-- Concrete quote for the spec's fuzzy-matching example. -/
def appleIncQuote : Quote :=
  { longname := some ("Apple Inc."), shortname := Option.none, symbol := some ("AAPL") }

/-- Concrete quote for the spec's fuzzy-matching example. -/
def appleHospQuote : Quote :=
  { longname := some ("Apple Hospitality REIT"), shortname := Option.none,
    symbol := some ("APLE") }

/-- A minimal valid metadata map: only the trailing P/E is present. -/
def infoPE : Info :=
  [("trailingPE", PyVal.num 10)]

/-- The snapshot `get_stock_data` builds for ticker `FOO` from `infoPE` and an
empty history. -/
def snapFoo : Snapshot :=
  { ticker := "FOO"
    company_name := PyVal.str ("N/A")
    exchange := PyVal.str ("N/A")
    sector := PyVal.str ("N/A")
    industry := PyVal.str ("N/A")
    summary := PyVal.str ("N/A")
    current_price := PyVal.none
    market_cap := PyVal.none
    fifty_two_week_range := "None - None"
    pe_ratio := PyVal.num 10
    eps := PyVal.none
    dividend_yield := PyVal.none
    recommendation := "N/A"
    target_mean_price := PyVal.none
    historical_prices := [] }

/-- A parsed result element whose anchor has no `href` attribute: extracting
it raises `KeyError`. -/
def badElem : RElem :=
  { anchor := some { text := "T", href := Option.none }, snippet := some ("S") }

/-- Environment with an empty quotes list (and failing everything else). -/
def env0 : Env :=
  { search := Except.ok []
    stock := fun _ => Except.error PyErr.keyError
    web := fun _ => Except.error () }

/-- Environment that resolves a ticker and returns financial data but whose
search pages contain a result anchor without `href`. -/
def envBad : Env :=
  { search := Except.ok [quoteFoo]
    stock := fun _ => Except.ok (infoPE, [])
    web := fun _ => Except.ok [badElem] }

/-- Environment that resolves a ticker and returns financial data but whose
four news requests all fail at the network level. -/
def envNet : Env :=
  { search := Except.ok [quoteFoo]
    stock := fun _ => Except.ok (infoPE, [])
    web := fun _ => Except.error () }

/-- Environment whose financial fetch yields an empty metadata map. -/
def envC3 : Env :=
  { search := Except.ok [quoteFoo]
    stock := fun _ => Except.ok ([], [])
    web := fun _ => Except.error () }

/-- A six-element search page: all elements complete except the third, whose
snippet is missing. -/
def pageC10 : List RElem :=
  [{ anchor := some { text := "t1", href := some ("https://a.example") }, snippet := some ("s1") },
   { anchor := some { text := "t2", href := some ("https://b.example") }, snippet := some ("s2") },
   { anchor := some { text := "t3", href := some ("https://c.example") }, snippet := Option.none },
   { anchor := some { text := "t4", href := some ("https://d.example") }, snippet := some ("s4") },
   { anchor := some { text := "t5", href := some ("https://e.example") }, snippet := some ("s5") },
   { anchor := some { text := "t6", href := some ("https://f.example") }, snippet := some ("s6") }]

/-- The items `web_search` returns for `pageC10` with `num_results = 5`. -/
def itemsC10 : List Item :=
  [{ title := "t1", link := "https://a.example", snippet := "s1" },
   { title := "t2", link := "https://b.example", snippet := "s2" },
   { title := "t4", link := "https://d.example", snippet := "s4" },
   { title := "t5", link := "https://e.example", snippet := "s5" }]

/-- difflib evaluation: the matching blocks of `"Apple Inc."` against
`"Apple"` total 5 elements. -/
theorem mtAppleInc : matchingTotal ['A', 'p', 'p', 'l', 'e', ' ', 'I', 'n', 'c', '.'] ['A', 'p', 'p', 'l', 'e'] = 5 := by decide

/-- difflib evaluation: the `quick_ratio` match count of `"Apple Inc."`
against `"Apple"` is 5. -/
theorem qmAppleInc : quickMatches ['A', 'p', 'p', 'l', 'e', ' ', 'I', 'n', 'c', '.'] ['A', 'p', 'p', 'l', 'e'] = 5 := by decide

/-- The spec's fuzzy-matching example: `"Apple Inc."` (ratio `2/3 ≥ 3/5`) is
selected, `"Apple Hospitality REIT"` (upper bound `10/27 < 3/5`) is
filtered out. -/
theorem gcm_Apple :
    get_close_matches ['A', 'p', 'p', 'l', 'e']
      [['A', 'p', 'p', 'l', 'e', ' ', 'I', 'n', 'c', '.'],
       ['A', 'p', 'p', 'l', 'e', ' ', 'H', 'o', 's', 'p', 'i', 't', 'a', 'l', 'i', 't', 'y', ' ', 'R', 'E', 'I', 'T']]
      1 (3/5) =
    [['A', 'p', 'p', 'l', 'e', ' ', 'I', 'n', 'c', '.']] := by
  have hcInc := eq_true_intro (show
      realQuickRatioOf ['A', 'p', 'p', 'l', 'e', ' ', 'I', 'n', 'c', '.'] ['A', 'p', 'p', 'l', 'e'] ≥ 3/5 ∧
      quickRatioOf ['A', 'p', 'p', 'l', 'e', ' ', 'I', 'n', 'c', '.'] ['A', 'p', 'p', 'l', 'e'] ≥ 3/5 ∧
      ratioOf ['A', 'p', 'p', 'l', 'e', ' ', 'I', 'n', 'c', '.'] ['A', 'p', 'p', 'l', 'e'] ≥ 3/5 by
    norm_num [realQuickRatioOf, quickRatioOf, ratioOf, calcRatio, mtAppleInc, qmAppleInc])
  have hcHosp := eq_false_intro (show ¬ (
      realQuickRatioOf ['A', 'p', 'p', 'l', 'e', ' ', 'H', 'o', 's', 'p', 'i', 't', 'a', 'l', 'i', 't', 'y', ' ', 'R', 'E', 'I', 'T'] ['A', 'p', 'p', 'l', 'e'] ≥ 3/5 ∧
      quickRatioOf ['A', 'p', 'p', 'l', 'e', ' ', 'H', 'o', 's', 'p', 'i', 't', 'a', 'l', 'i', 't', 'y', ' ', 'R', 'E', 'I', 'T'] ['A', 'p', 'p', 'l', 'e'] ≥ 3/5 ∧
      ratioOf ['A', 'p', 'p', 'l', 'e', ' ', 'H', 'o', 's', 'p', 'i', 't', 'a', 'l', 'i', 't', 'y', ' ', 'R', 'E', 'I', 'T'] ['A', 'p', 'p', 'l', 'e'] ≥ 3/5) by
    intro hco
    have h1 := hco.1
    norm_num [realQuickRatioOf, calcRatio] at h1)
  simp [get_close_matches, hcInc, hcHosp, nlargest, insertDesc]

/-- The resolver maps `"Apple"` with the spec's two candidates to `AAPL`. -/
theorem search_Apple :
    search_ticker (Except.ok [appleIncQuote, appleHospQuote]) ("Apple") = some ("AAPL") := by
  simp [search_ticker, appleIncQuote, appleHospQuote, namesEntry, gcm_Apple, loopName]


/-- Evaluation: no candidate in `["Foo"]` clears the `0.6` cutoff against `"Z"`. -/
theorem gcm_Z_Foo : get_close_matches ['Z'] [['F', 'o', 'o']] 1 (3/5) = [] := by
  norm_num [get_close_matches, realQuickRatioOf, calcRatio, nlargest]

/-- Evaluation: with the single quote `Foo`/`FOO` and query `Z`, the resolver
falls back to the first quote's symbol. -/
theorem search_Foo_Z : search_ticker (Except.ok [quoteFoo]) ("Z") = some ("FOO") := by
  simp [search_ticker, quoteFoo, namesEntry, gcm_Z_Foo]

/-- Members of `insertDesc` come from the inserted element or the list. -/
theorem mem_insertDesc {α : Type} (lt : α → α → Bool) (x : α) :
    ∀ (l : List α) (z : α), z ∈ insertDesc lt x l → z = x ∨ z ∈ l := by
  intro l
  induction l with
  | nil =>
    intro z hz
    exact Or.inl (List.mem_singleton.mp hz)
  | cons y ys ih =>
    intro z hz
    simp only [insertDesc] at hz
    by_cases hc : lt y x = true
    · rw [if_pos hc] at hz
      rcases List.mem_cons.mp hz with h | h
      · exact Or.inl h
      · exact Or.inr h
    · rw [if_neg hc] at hz
      rcases List.mem_cons.mp hz with h | h
      · exact Or.inr (by rw [h]; exact List.mem_cons_self y ys)
      · rcases ih z h with h1 | h1
        · exact Or.inl h1
        · exact Or.inr (List.mem_cons_of_mem _ h1)

/-- Members of the insertion-sort fold come from the accumulator or the input. -/
theorem mem_sortFold {α : Type} (lt : α → α → Bool) :
    ∀ (l acc : List α) (z : α),
      z ∈ List.foldl (fun acc x => insertDesc lt x acc) acc l → z ∈ acc ∨ z ∈ l := by
  intro l
  induction l with
  | nil => intro acc z hz; exact Or.inl hz
  | cons x xs ih =>
    intro acc z hz
    rcases ih (insertDesc lt x acc) z hz with h | h
    · rcases mem_insertDesc lt x acc z h with h1 | h1
      · exact Or.inr (by rw [h1]; exact List.mem_cons_self x xs)
      · exact Or.inl h1
    · exact Or.inr (List.mem_cons_of_mem _ h)

/-- The function `nlargest` only returns members of its input. -/
theorem mem_nlargest {α : Type} (lt : α → α → Bool) (n : Nat) (xs : List α) (z : α)
    (hz : z ∈ nlargest lt n xs) : z ∈ xs := by
  unfold nlargest at hz
  have h1 := List.take_subset n _ hz
  rcases mem_sortFold lt xs [] z h1 with h | h
  · cases h
  · exact h

/-- When `extractLoop` succeeds, its items are exactly the per-element
extraction over the list, in page order. -/
theorem extractLoop_ok : ∀ (rs : List RElem) (items : List Item),
    extractLoop rs = Except.ok items → items = rs.filterMap itemOf := by
  intro rs
  induction rs with
  | nil =>
    intro items h
    simp only [extractLoop] at h
    cases h
    simp
  | cons r rest ih =>
    intro items h
    obtain ⟨ranchor, rsnippet⟩ := r
    rcases ranchor with _ | a
    · simp only [extractLoop] at h
      simp only [List.filterMap_cons, itemOf]
      exact ih items h
    · obtain ⟨atext, ahref⟩ := a
      rcases rsnippet with _ | sn
      · simp only [extractLoop] at h
        simp only [List.filterMap_cons, itemOf]
        exact ih items h
      · rcases ahref with _ | href
        · simp only [extractLoop] at h
          cases h
        · simp only [extractLoop] at h
          rcases he : extractLoop rest with e | prev <;> rw [he] at h
          · cases h
          · cases h
            simp only [List.filterMap_cons, itemOf]
            rw [ih prev he]

/-- The news phase never produces an `HTTPException` outcome. -/
theorem newsPhase_ne_httpError (env : Env) (n : String) (sd : Snapshot) (o : String)
    (s : Nat) (d : String) : newsPhase env n sd o ≠ AnalyzeResult.httpError s d := by
  intro h
  unfold newsPhase at h
  repeat' split at h
  all_goals simp_all

/-- Claim C2, counterexample: the whitespace-only name `" "` is not rejected
with 400; it reaches ticker resolution and surfaces the 404
resolution-failure message (the code only tests `not company_name`, which is
false for `" "`). -/
theorem C2_counterexample :
    analyze_company env0 (" ") =
      AnalyzeResult.httpError 404 "Could not find a stock ticker for ' '." := by
  decide

/-- Claim C2, amended: the `/api/analyze` endpoint returns status 400 with
the empty-name detail exactly when `company_name` is the empty string;
whitespace-only names proceed to ticker resolution. -/
theorem C2_amended (env : Env) (name : String) :
    (analyze_company env name =
      AnalyzeResult.httpError 400 "Company name cannot be empty.") ↔ name = "" := by
  constructor
  · intro h
    by_contra hne
    unfold analyze_company at h
    rw [if_neg hne] at h
    repeat' split at h
    all_goals first
      | exact newsPhase_ne_httpError _ _ _ _ _ _ h
      | simp_all
  · intro h
    subst h
    simp [analyze_company]

/-- Witness for the amended claim C2 at the concrete input `""`. -/
theorem C2_witness :
    analyze_company env0 ("") = AnalyzeResult.httpError 400 "Company name cannot be empty." :=
  (C2_amended env0 ("")).mpr rfl

/-- Claim C3 (confirmed): for a resolved ticker whose metadata object is
empty or lacks a trailing P/E entry (absent, or present as `None`), the
financial fetch reports failure by returning the no-data signal `None` —
regardless of all other fields — and the endpoint answers 404 with the
message referencing that ticker. -/
theorem C3_thm (env : Env) (name ticker : String) (info : Info) (hist : List Row)
    (hname : name ≠ "")
    (hsearch : search_ticker env.search name = some ticker)
    (hticker : ticker ≠ "")
    (hstock : env.stock ticker = Except.ok (info, hist))
    (hmeta : info = [] ∨ pyGet info ("trailingPE") = PyVal.none) :
    get_stock_data ticker (env.stock ticker) = Option.none ∧
      analyze_company env name =
        AnalyzeResult.httpError 404
          ("Could not retrieve financial data for ticker '" ++ ticker ++
            "'. The company might be delisted or data is unavailable.") := by
  have hgsd : get_stock_data ticker (env.stock ticker) = Option.none := by
    rw [hstock]
    simp only [get_stock_data]
    rw [if_pos hmeta]
  refine ⟨hgsd, ?_⟩
  unfold analyze_company
  rw [if_neg hname, hsearch]
  simp [hticker, hgsd]

/-- Witness for claim C3: empty metadata for ticker `FOO`. -/
theorem C3_witness :
    get_stock_data ("FOO") (envC3.stock ("FOO")) = Option.none ∧
      analyze_company envC3 ("Z") =
        AnalyzeResult.httpError 404
          ("Could not retrieve financial data for ticker '" ++ "FOO" ++
            "'. The company might be delisted or data is unavailable.") :=
  C3_thm envC3 ("Z") ("FOO") [] [] (by decide) search_Foo_Z (by decide) rfl (Or.inl rfl)

/-- Claim C5, counterexample: a `recommendationKey` present with value
`None` does not map to `"N/A"`; `.replace` on `None` raises
`AttributeError`, the `except` arm swallows it, and the whole fetch returns
the no-data signal instead of a snapshot. -/
theorem C5_counterexample :
    get_stock_data ("X")
      (Except.ok ([("trailingPE", PyVal.num 10), ("recommendationKey", PyVal.none)], [])) =
      Option.none := by
  decide

/-- Claim C5, amended: `"strong_buy"` is normalized to `"Strong Buy"`
(underscores to spaces, then title case) and an absent key defaults to
`"N/A"`, with the snapshot produced; but a key present with value `None`
makes the whole fetch fail with the no-data signal. -/
theorem C5_amended (t : String) (info : Info) (hist : List Row)
    (hne : info ≠ []) (hpe : pyGet info ("trailingPE") ≠ PyVal.none) :
    (pyGetD info ("recommendationKey") (PyVal.str ("N/A")) = PyVal.str ("strong_buy") →
       ∃ snap, get_stock_data t (Except.ok (info, hist)) = some snap ∧
         snap.recommendation = "Strong Buy") ∧
    (List.lookup ("recommendationKey") info = Option.none →
       ∃ snap, get_stock_data t (Except.ok (info, hist)) = some snap ∧
         snap.recommendation = "N/A") ∧
    (pyGetD info ("recommendationKey") (PyVal.str ("N/A")) = PyVal.none →
       get_stock_data t (Except.ok (info, hist)) = Option.none) := by
  have hcond : ¬ (info = [] ∨ pyGet info ("trailingPE") = PyVal.none) := by
    intro h
    rcases h with h | h
    · exact hne h
    · exact hpe h
  refine ⟨?_, ?_, ?_⟩
  · intro hrk
    simp only [get_stock_data]
    rw [if_neg hcond, hrk]
    refine ⟨_, rfl, ?_⟩
    show pyTitle (String.mk (pyReplace ("strong_buy").data ("_").data (" ").data)) = "Strong Buy"
    decide
  · intro hrk
    simp only [get_stock_data]
    rw [if_neg hcond]
    unfold pyGetD
    rw [hrk]
    refine ⟨_, rfl, ?_⟩
    show pyTitle (String.mk (pyReplace ("N/A").data ("_").data (" ").data)) = "N/A"
    decide
  · intro hrk
    simp only [get_stock_data]
    rw [if_neg hcond, hrk]

/-- Witness for the amended claim C5 at `recommendationKey = "strong_buy"`. -/
theorem C5_witness :
    ∃ snap,
      get_stock_data ("X")
        (Except.ok
          ([("trailingPE", PyVal.num 10), ("recommendationKey", PyVal.str ("strong_buy"))], [])) =
        some snap ∧ snap.recommendation = "Strong Buy" :=
  (C5_amended ("X")
      [("trailingPE", PyVal.num 10), ("recommendationKey", PyVal.str ("strong_buy"))] []
      (by decide) (by decide)).1 (by decide)

/-- Claim C6 (confirmed): on a successful fetch the snapshot defaults each
missing string field (`longName`, `exchange`, `sector`, `industry`,
`longBusinessSummary`, `recommendationKey`) to the literal `"N/A"` and
leaves each missing numeric field (`currentPrice`, `marketCap`,
`trailingEps`, `dividendYield`, `targetMeanPrice`) as `None` — absence never
fails the projection. -/
theorem C6_thm (t : String) (info : Info) (hist : List Row) (rk : String)
    (hne : info ≠ []) (hpe : pyGet info ("trailingPE") ≠ PyVal.none)
    (hrk : pyGetD info ("recommendationKey") (PyVal.str ("N/A")) = PyVal.str rk) :
    ∃ snap, get_stock_data t (Except.ok (info, hist)) = some snap ∧
      (List.lookup ("longName") info = Option.none → snap.company_name = PyVal.str ("N/A")) ∧
      (List.lookup ("exchange") info = Option.none → snap.exchange = PyVal.str ("N/A")) ∧
      (List.lookup ("sector") info = Option.none → snap.sector = PyVal.str ("N/A")) ∧
      (List.lookup ("industry") info = Option.none → snap.industry = PyVal.str ("N/A")) ∧
      (List.lookup ("longBusinessSummary") info = Option.none → snap.summary = PyVal.str ("N/A")) ∧
      (List.lookup ("recommendationKey") info = Option.none → snap.recommendation = "N/A") ∧
      (List.lookup ("currentPrice") info = Option.none → snap.current_price = PyVal.none) ∧
      (List.lookup ("marketCap") info = Option.none → snap.market_cap = PyVal.none) ∧
      (List.lookup ("trailingEps") info = Option.none → snap.eps = PyVal.none) ∧
      (List.lookup ("dividendYield") info = Option.none → snap.dividend_yield = PyVal.none) ∧
      (List.lookup ("targetMeanPrice") info = Option.none → snap.target_mean_price = PyVal.none) := by
  have hcond : ¬ (info = [] ∨ pyGet info ("trailingPE") = PyVal.none) := by
    intro h
    rcases h with h | h
    · exact hne h
    · exact hpe h
  simp only [get_stock_data]
  rw [if_neg hcond, hrk]
  refine ⟨_, rfl, ?_, ?_, ?_, ?_, ?_, ?_, ?_, ?_, ?_, ?_, ?_⟩
  · intro h
    show pyGetD info ("longName") (PyVal.str ("N/A")) = PyVal.str ("N/A")
    simp [pyGetD, h]
  · intro h
    show pyGetD info ("exchange") (PyVal.str ("N/A")) = PyVal.str ("N/A")
    simp [pyGetD, h]
  · intro h
    show pyGetD info ("sector") (PyVal.str ("N/A")) = PyVal.str ("N/A")
    simp [pyGetD, h]
  · intro h
    show pyGetD info ("industry") (PyVal.str ("N/A")) = PyVal.str ("N/A")
    simp [pyGetD, h]
  · intro h
    show pyGetD info ("longBusinessSummary") (PyVal.str ("N/A")) = PyVal.str ("N/A")
    simp [pyGetD, h]
  · intro h
    have hdef : pyGetD info ("recommendationKey") (PyVal.str ("N/A")) = PyVal.str ("N/A") := by
      simp [pyGetD, h]
    have : rk = "N/A" := by
      have := hrk.symm.trans hdef
      exact PyVal.str.inj this
    subst this
    show pyTitle (String.mk (pyReplace ("N/A").data ("_").data (" ").data)) = "N/A"
    decide
  · intro h
    show pyGet info ("currentPrice") = PyVal.none
    simp [pyGet, pyGetD, h]
  · intro h
    show pyGet info ("marketCap") = PyVal.none
    simp [pyGet, pyGetD, h]
  · intro h
    show pyGet info ("trailingEps") = PyVal.none
    simp [pyGet, pyGetD, h]
  · intro h
    show pyGet info ("dividendYield") = PyVal.none
    simp [pyGet, pyGetD, h]
  · intro h
    show pyGet info ("targetMeanPrice") = PyVal.none
    simp [pyGet, pyGetD, h]

/-- Witness for claim C6 on the minimal metadata map `infoPE`. -/
theorem C6_witness :
    ∃ snap, get_stock_data ("X") (Except.ok (infoPE, [])) = some snap ∧
      (List.lookup ("longName") infoPE = Option.none → snap.company_name = PyVal.str ("N/A")) ∧
      (List.lookup ("exchange") infoPE = Option.none → snap.exchange = PyVal.str ("N/A")) ∧
      (List.lookup ("sector") infoPE = Option.none → snap.sector = PyVal.str ("N/A")) ∧
      (List.lookup ("industry") infoPE = Option.none → snap.industry = PyVal.str ("N/A")) ∧
      (List.lookup ("longBusinessSummary") infoPE = Option.none → snap.summary = PyVal.str ("N/A")) ∧
      (List.lookup ("recommendationKey") infoPE = Option.none → snap.recommendation = "N/A") ∧
      (List.lookup ("currentPrice") infoPE = Option.none → snap.current_price = PyVal.none) ∧
      (List.lookup ("marketCap") infoPE = Option.none → snap.market_cap = PyVal.none) ∧
      (List.lookup ("trailingEps") infoPE = Option.none → snap.eps = PyVal.none) ∧
      (List.lookup ("dividendYield") infoPE = Option.none → snap.dividend_yield = PyVal.none) ∧
      (List.lookup ("targetMeanPrice") infoPE = Option.none → snap.target_mean_price = PyVal.none) :=
  C6_thm ("X") infoPE [] ("N/A") (by decide) (by decide) (by decide)

/-- Claim C9 (confirmed): when the metadata lacks `longName`, the snapshot's
`company_name` is the sentinel `"N/A"`; since that key is always populated,
the handler's `official_name` is `"N/A"` (never the caller's original name)
and all four news queries are synthesized from the literal `"N/A"`. -/
theorem C9_thm (env : Env) (name ticker : String) (info : Info) (hist : List Row) (rk : String)
    (hname : name ≠ "")
    (hsearch : search_ticker env.search name = some ticker) (hticker : ticker ≠ "")
    (hstock : env.stock ticker = Except.ok (info, hist))
    (hne : info ≠ []) (hpe : pyGet info ("trailingPE") ≠ PyVal.none)
    (hrk : pyGetD info ("recommendationKey") (PyVal.str ("N/A")) = PyVal.str rk)
    (hlong : List.lookup ("longName") info = Option.none) :
    ∃ snap, get_stock_data ticker (env.stock ticker) = some snap ∧
      snap.company_name = PyVal.str ("N/A") ∧
      officialNameOf snap = "N/A" ∧
      analyze_company env name = newsPhase env name snap ("N/A") := by
  have hcond : ¬ (info = [] ∨ pyGet info ("trailingPE") = PyVal.none) := by
    intro h
    rcases h with h | h
    · exact hne h
    · exact hpe h
  have hcn : pyGetD info ("longName") (PyVal.str ("N/A")) = PyVal.str ("N/A") := by
    simp [pyGetD, hlong]
  have hgsd : ∃ snap, get_stock_data ticker (env.stock ticker) = some snap ∧
      snap.company_name = PyVal.str ("N/A") := by
    rw [hstock]
    simp only [get_stock_data]
    rw [if_neg hcond, hrk]
    exact ⟨_, rfl, hcn⟩
  rcases hgsd with ⟨snap, hsnap, hcomp⟩
  have hoff : officialNameOf snap = "N/A" := by
    unfold officialNameOf
    rw [hcomp]
  refine ⟨snap, hsnap, hcomp, hoff, ?_⟩
  unfold analyze_company
  rw [if_neg hname, hsearch]
  simp only [hticker, hsnap, hoff]
  simp [hticker]

/-- Witness for claim C9 with metadata `infoPE` (no `longName`). -/
theorem C9_witness :
    ∃ snap, get_stock_data ("FOO") (envNet.stock ("FOO")) = some snap ∧
      snap.company_name = PyVal.str ("N/A") ∧
      officialNameOf snap = "N/A" ∧
      analyze_company envNet ("Z") = newsPhase envNet ("Z") snap ("N/A") :=
  C9_thm envNet ("Z") ("FOO") infoPE [] ("N/A") (by decide) search_Foo_Z (by decide) rfl
    (by decide) (by decide) (by decide) (by decide)

/-- Claim C10 (confirmed): `web_search` inspects only the first
`num_results` elements of the page, returns at most `num_results` items as
the in-order extraction of that prefix (each item assembled from a complete
title/link/snippet element), and a partial element inside the prefix lowers
the count below `num_results` even when complete elements occur later:
`pageC10` holds five complete elements but only four results emerge. -/
theorem C10_thm :
    (∀ (elems : List RElem) (n : Nat),
        web_search (Except.ok elems) n = web_search (Except.ok (elems.take n)) n) ∧
    (∀ (elems : List RElem) (n : Nat) (items : List Item),
        web_search (Except.ok elems) n = Except.ok items →
          items = (elems.take n).filterMap itemOf ∧ items.length ≤ n) ∧
    (web_search (Except.ok pageC10) 5 = Except.ok itemsC10 ∧
      itemsC10.length = 4 ∧ (pageC10.filter completeElem).length = 5) := by
  refine ⟨?_, ?_, ?_⟩
  · intro elems n
    simp only [web_search, List.take_take, min_self]
  · intro elems n items h
    unfold web_search at h
    have hitems := extractLoop_ok _ _ h
    refine ⟨hitems, ?_⟩
    rw [hitems]
    exact le_trans (List.length_filterMap_le _ _) (List.length_take_le _ _)
  · refine ⟨by decide, by decide, by decide⟩

/-- Witness for claim C10's extraction shape on `pageC10`. -/
theorem C10_witness :
    itemsC10 = (pageC10.take 5).filterMap itemOf ∧ itemsC10.length ≤ 5 :=
  C10_thm.2.1 pageC10 5 itemsC10 (by decide)

/-- Claim C1, counterexample: a raw exception does reach the HTTP boundary.
With upstreams healthy except that a search page's result anchor lacks an
`href` attribute, `link_tag['href']` raises `KeyError`, which `web_search`'s
`except requests.exceptions.RequestException` clause does not catch, so the
request ends in an uncaught exception instead of an empty result list. -/
theorem C1_counterexample :
    analyze_company envBad ("Z") = AnalyzeResult.uncaught PyErr.keyError := by
  unfold analyze_company
  rw [if_neg (by decide : ¬ ("Z" = ""))]
  rw [show search_ticker envBad.search ("Z") = some ("FOO") from search_Foo_Z]
  decide

/-- Claim C1, amended: upstream *network* failures are caught at the call
site and converted to designed outcomes — resolution failure for the ticker
search, the no-data signal for the financial fetch, and an empty result list
per news query (a full request with all four news queries failing at the
network level still returns the 200 envelope with four empty lists).  Parse
failures inside result extraction are not converted (see the
counterexample). -/
theorem C1_amended :
    (∀ (name : String), search_ticker (Except.error ()) name = Option.none) ∧
    (∀ (t : String) (e : PyErr), get_stock_data t (Except.error e) = Option.none) ∧
    (∀ (n : Nat), web_search (Except.error ()) n = Except.ok []) ∧
    analyze_company envNet ("Z") = AnalyzeResult.ok ("Z") snapFoo [] [] [] [] := by
  refine ⟨fun name => rfl, fun t e => rfl, fun n => rfl, ?_⟩
  unfold analyze_company
  rw [if_neg (by decide : ¬ ("Z" = ""))]
  rw [show search_ticker envNet.search ("Z") = some ("FOO") from search_Foo_Z]
  decide

/-- Claim C4 (confirmed): the resolver is a pure (hence deterministic)
function of the quotes and the query; a candidate is accepted only if its
similarity reaches the `0.6` cutoff; when no candidate clears the cutoff the
first quote's symbol is returned (not an error); and on the spec's example
(candidates `"Apple Inc."`, `"Apple Hospitality REIT"`, input `"Apple"`)
the resolver selects `AAPL`. -/
theorem C4_thm :
    (∀ (word : String) (q0 : Quote) (qs : List Quote),
        get_close_matches word.data ((q0 :: qs).map (fun q => (namesEntry q).data)) 1 (3/5) = [] →
        search_ticker (Except.ok (q0 :: qs)) word = q0.symbol) ∧
    (∀ (word : List Char) (poss : List (List Char)) (n : Nat) (cutoff : ℚ) (m : List Char),
        m ∈ get_close_matches word poss n cutoff →
        m ∈ poss ∧ ratioOf m word ≥ cutoff) ∧
    search_ticker (Except.ok [appleIncQuote, appleHospQuote]) ("Apple") = some ("AAPL") := by
  refine ⟨?_, ?_, search_Apple⟩
  · intro word q0 qs hgcm
    simp only [search_ticker]
    rw [hgcm]
  · intro word poss n cutoff m hm
    simp only [get_close_matches] at hm
    rcases List.mem_map.mp hm with ⟨p, hp, hpm⟩
    have hpmem := mem_nlargest _ _ _ _ hp
    rcases List.mem_filterMap.mp hpmem with ⟨x, hx, hfx⟩
    by_cases hc : (realQuickRatioOf x word ≥ cutoff ∧ quickRatioOf x word ≥ cutoff ∧
        ratioOf x word ≥ cutoff)
    · rw [if_pos hc] at hfx
      cases hfx
      subst hpm
      exact ⟨hx, hc.2.2⟩
    · rw [if_neg hc] at hfx
      cases hfx

/-- Witness for claim C4's fallback part: with sole candidate `Foo` and
query `Z` no candidate clears the cutoff, and the first symbol is chosen. -/
theorem C4_witness :
    search_ticker (Except.ok [quoteFoo]) ("Z") = quoteFoo.symbol :=
  C4_thm.1 ("Z") quoteFoo [] gcm_Z_Foo

/-- A list is a `isPrefixOf`-prefix of itself followed by anything. -/
theorem isPrefixOf_self_append (l t : List Char) : l.isPrefixOf (l ++ t) = true := by
  induction l with
  | nil => simp [List.isPrefixOf]
  | cons c cs ih => simp [List.isPrefixOf, ih]

/-- The scan `pySplitF` always yields at least one piece. -/
theorem pySplitF_ne_nil (sep : List Char) : ∀ (fuel : Nat) (s : List Char),
    pySplitF sep fuel s ≠ [] := by
  intro fuel
  induction fuel with
  | zero =>
    intro s
    cases s <;> simp [pySplitF]
  | succ f ih =>
    intro s
    cases s with
    | nil => simp [pySplitF]
    | cons c cs =>
      simp only [pySplitF]
      split
      · simp
      · split <;> simp

/-- A scan over a string with no separator occurrence returns it whole. -/
theorem pySplitF_no_occurrence (sep : List Char) :
    ∀ (fuel : Nat) (s : List Char),
      (∀ e, e <:+ s → sep.isPrefixOf e = false) →
      pySplitF sep fuel s = [s] := by
  intro fuel
  induction fuel with
  | zero =>
    intro s _
    cases s <;> simp [pySplitF]
  | succ f ih =>
    intro s h
    cases s with
    | nil => simp [pySplitF]
    | cons c cs =>
      simp only [pySplitF]
      rw [if_neg ?hneg]
      case hneg =>
        intro hco
        rw [h (c :: cs) List.suffix_rfl] at hco
        exact Bool.false_ne_true hco.2
      rw [ih cs (fun e he => h e (he.trans (List.suffix_cons c cs)))]

/-- When the separator first occurs exactly at the `pre`/`sep` boundary, the
first piece of the split (`split(sep)[0]`) is `pre`. -/
theorem pySplitF_head_boundary (sep : List Char) (hsep : sep ≠ []) :
    ∀ (fuel : Nat) (pre rest : List Char),
      (pre ++ sep ++ rest).length ≤ fuel →
      (∀ e, e <:+ pre → e ≠ [] → sep.isPrefixOf (e ++ sep ++ rest) = false) →
      (pySplitF sep fuel (pre ++ sep ++ rest)).headD [] = pre := by
  intro fuel
  induction fuel with
  | zero =>
    intro pre rest hlen _
    exfalso
    cases sep with
    | nil => exact hsep rfl
    | cons a as => simp [List.length_append] at hlen
  | succ f ih =>
    intro pre rest hlen h
    cases pre with
    | nil =>
      simp only [List.nil_append]
      cases hs : sep with
      | nil => exact absurd hs hsep
      | cons a as =>
        rw [← hs]
        have hne : sep ++ rest = a :: (as ++ rest) := by rw [hs]; simp
        rw [hne]
        simp only [pySplitF]
        rw [← hne, if_pos ⟨hsep, isPrefixOf_self_append sep rest⟩]
        rw [hne, ← hne, List.drop_left]
        simp
    | cons c pre' =>
      have hstep : (c :: pre') ++ sep ++ rest = c :: (pre' ++ sep ++ rest) := by simp
      rw [hstep]
      simp only [pySplitF]
      rw [← hstep, if_neg ?hneg]
      case hneg =>
        intro hco
        rw [h (c :: pre') List.suffix_rfl (by simp)] at hco
        exact Bool.false_ne_true hco.2
      rcases hrec : pySplitF sep f (pre' ++ sep ++ rest) with _ | ⟨p, restl⟩
      · exact absurd hrec (pySplitF_ne_nil sep f _)
      · have hlen' : (pre' ++ sep ++ rest).length ≤ f := by
          rw [hstep] at hlen
          simp at hlen
          simp
          omega
        have h' : ∀ e, e <:+ pre' → e ≠ [] → sep.isPrefixOf (e ++ sep ++ rest) = false :=
          fun e he hne => h e (he.trans (List.suffix_cons c pre')) hne
        have := ih pre' rest hlen' h'
        rw [hrec] at this
        simp only [List.headD] at this ⊢
        rw [this]

/-- When the separator occurs at the `pre`/`sep` boundary and never inside
`rest`, the final piece of the split (`split(sep)[-1]`) is `rest`. -/
theorem pySplitF_last_boundary (sep : List Char) (hsep : sep ≠ []) :
    ∀ (fuel : Nat) (pre rest : List Char),
      (pre ++ sep ++ rest).length ≤ fuel →
      (∀ e, e <:+ rest → sep.isPrefixOf e = false) →
      (∀ e, e <:+ pre → e ≠ [] → sep.isPrefixOf (e ++ sep ++ rest) = false) →
      ∃ parts, parts ≠ [] ∧ pySplitF sep fuel (pre ++ sep ++ rest) = parts ++ [rest] := by
  intro fuel
  induction fuel with
  | zero =>
    intro pre rest hlen _ _
    exfalso
    cases sep with
    | nil => exact hsep rfl
    | cons a as => simp [List.length_append] at hlen
  | succ f ih =>
    intro pre rest hlen hrest h
    cases pre with
    | nil =>
      refine ⟨[[]], by simp, ?_⟩
      simp only [List.nil_append]
      cases hs : sep with
      | nil => exact absurd hs hsep
      | cons a as =>
        rw [← hs]
        have hne : sep ++ rest = a :: (as ++ rest) := by rw [hs]; simp
        rw [hne]
        simp only [pySplitF]
        rw [← hne, if_pos ⟨hsep, isPrefixOf_self_append sep rest⟩]
        rw [hne, ← hne, List.drop_left]
        rw [pySplitF_no_occurrence sep f rest hrest]
        simp
    | cons c pre' =>
      have hstep : (c :: pre') ++ sep ++ rest = c :: (pre' ++ sep ++ rest) := by simp
      rw [hstep]
      simp only [pySplitF]
      rw [← hstep, if_neg ?hneg]
      case hneg =>
        intro hco
        rw [h (c :: pre') List.suffix_rfl (by simp)] at hco
        exact Bool.false_ne_true hco.2
      have hlen' : (pre' ++ sep ++ rest).length ≤ f := by
        rw [hstep] at hlen
        simp at hlen
        simp
        omega
      have h' : ∀ e, e <:+ pre' → e ≠ [] → sep.isPrefixOf (e ++ sep ++ rest) = false :=
        fun e he hne => h e (he.trans (List.suffix_cons c pre')) hne
      rcases ih pre' rest hlen' hrest h' with ⟨parts, hpne, hparts⟩
      rw [hparts]
      rcases parts with _ | ⟨p0, ptl⟩
      · exact absurd rfl hpne
      · exact ⟨(c :: p0) :: ptl, by simp, by simp⟩

/-- If the separator occurs at no suffix of `pre` and has no proper
prefix/suffix self-overlap, then no occurrence can start strictly inside
`pre` and straddle into the explicit separator that follows it. -/
theorem noStraddle (sep pre : List Char)
    (hocc : ∀ e ∈ pre.tails, sep.isPrefixOf e = false)
    (hself : ∀ k, k < sep.length → 0 < k → (sep.drop k).isPrefixOf sep = false) :
    ∀ (rest e : List Char), e <:+ pre → e ≠ [] →
      sep.isPrefixOf (e ++ sep ++ rest) = false := by
  intro rest e he hne
  by_contra hcon
  rw [Bool.not_eq_false, List.isPrefixOf_iff_prefix, List.append_assoc] at hcon
  by_cases hle : sep.length ≤ e.length
  · have hsp : sep <+: e :=
      List.prefix_of_prefix_length_le hcon (List.prefix_append e (sep ++ rest)) hle
    have htrue : sep.isPrefixOf e = true := List.isPrefixOf_iff_prefix.mpr hsp
    rw [hocc e ((List.mem_tails e pre).mpr he)] at htrue
    exact Bool.false_ne_true htrue
  · obtain ⟨t, ht⟩ := hcon
    have hk0 : 0 < e.length := List.length_pos.mpr hne
    have hklt : e.length < sep.length := Nat.lt_of_not_le hle
    have hdrop : sep.drop e.length ++ t = sep ++ rest := by
      have h1 : (sep ++ t).drop e.length = sep.drop e.length ++ t :=
        List.drop_append_of_le_length (Nat.le_of_lt hklt)
      have h2 : (e ++ (sep ++ rest)).drop e.length = sep ++ rest :=
        List.drop_left e (sep ++ rest)
      rw [← h1, ht, h2]
    have hdp : sep.drop e.length <+: sep ++ rest := ⟨t, hdrop⟩
    have hds : sep.drop e.length <+: sep := by
      refine List.prefix_of_prefix_length_le hdp (List.prefix_append sep rest) ?_
      simp
    have htrue : (sep.drop e.length).isPrefixOf sep = true :=
      List.isPrefixOf_iff_prefix.mpr hds
    rw [hself e.length hklt hk0] at htrue
    exact Bool.false_ne_true htrue

/-- Claim C8 (confirmed): for a wrapped result link
`//duckduckgo.com/l/?uddg=<target>&rut=<tracking>` whose encoded target
contains no further wrapper markers, the extracted link is exactly the
percent-decoded target with the tracking suffix discarded. -/
theorem C8_thm (enc tr : List Char)
    (h1 : ∀ e ∈ (enc ++ rutSep ++ tr).tails, uddgSep.isPrefixOf e = false)
    (h2 : ∀ e ∈ enc.tails, e ≠ [] → rutSep.isPrefixOf (e ++ rutSep ++ tr) = false) :
    cleanLink (String.mk (ddgChars ++ uddgSep ++ (enc ++ rutSep ++ tr))) =
      String.mk (pctDecode enc) := by
  unfold cleanLink
  have hdata : (String.mk (ddgChars ++ uddgSep ++ (enc ++ rutSep ++ tr))).data
      = ddgChars ++ uddgSep ++ (enc ++ rutSep ++ tr) := rfl
  rw [hdata]
  unfold pySplit
  have hrest : ∀ e, e <:+ (enc ++ rutSep ++ tr) → uddgSep.isPrefixOf e = false :=
    fun e he => h1 e ((List.mem_tails e _).mpr he)
  have hpre1 : ∀ e, e <:+ ddgChars → e ≠ [] →
      uddgSep.isPrefixOf (e ++ uddgSep ++ (enc ++ rutSep ++ tr)) = false :=
    fun e he hne => noStraddle uddgSep ddgChars (by decide) (by decide) _ e he hne
  rcases pySplitF_last_boundary uddgSep (by decide)
      ((ddgChars ++ uddgSep ++ (enc ++ rutSep ++ tr)).length) ddgChars
      (enc ++ rutSep ++ tr) le_rfl hrest hpre1 with ⟨parts, hpne, heq⟩
  rw [heq, List.getLastD_concat]
  have hpre2 : ∀ e, e <:+ enc → e ≠ [] →
      rutSep.isPrefixOf (e ++ rutSep ++ tr) = false :=
    fun e he hne => h2 e ((List.mem_tails e enc).mpr he) hne
  rw [pySplitF_head_boundary rutSep (by decide) ((enc ++ rutSep ++ tr).length) enc tr
    le_rfl hpre2]

/-- Witness for claim C8 on a concrete wrapped link, whose decoded target is
`https://example.com/page`. -/
theorem C8_witness :
    cleanLink (String.mk (ddgChars ++ uddgSep ++
        (("https%3A%2F%2Fexample.com%2Fpage").data ++ rutSep ++ ("abc123").data))) =
      String.mk (pctDecode ("https%3A%2F%2Fexample.com%2Fpage").data) ∧
      String.mk (pctDecode ("https%3A%2F%2Fexample.com%2Fpage").data) =
        "https://example.com/page" :=
  ⟨C8_thm ("https%3A%2F%2Fexample.com%2Fpage").data ("abc123").data
      (by decide) (by decide),
    by decide⟩

/-- Applying `Nat.digitChar` to a digit gives a decimal digit character. -/
theorem digitChar_isDigit (k : Nat) (hk : k < 10) : (Nat.digitChar k).isDigit = true := by
  interval_cases k <;> decide

/-- The value `digitVal` inverts `Nat.digitChar` on digits. -/
theorem digitVal_digitChar (k : Nat) (hk : k < 10) : digitVal (Nat.digitChar k) = k := by
  interval_cases k <;> decide

/-- The map `Nat.digitChar` is injective on digits. -/
theorem digitChar_inj (i j : Nat) (hi : i < 10) (hj : j < 10)
    (h : Nat.digitChar i = Nat.digitChar j) : i = j := by
  interval_cases i <;> interval_cases j <;> first | rfl | (exact absurd h (by decide))

/-- The map `Nat.digitChar` is strictly monotone on digits. -/
theorem digitChar_lt (i j : Nat) (hi : i < 10) (hj : j < 10) (hij : i < j) :
    Nat.digitChar i < Nat.digitChar j := by
  interval_cases i <;> interval_cases j <;> decide

/-- Lexicographic `≤` is reflexive. -/
theorem lexLeB_refl : ∀ l, lexLeB l l = true := by
  intro l
  induction l with
  | nil => rfl
  | cons c cs ih => simp [lexLeB, ih]

/-- A common prefix does not affect the lexicographic comparison. -/
theorem lexLeB_append_same : ∀ (p r1 r2 : List Char),
    lexLeB (p ++ r1) (p ++ r2) = lexLeB r1 r2 := by
  intro p
  induction p with
  | nil => intro r1 r2; rfl
  | cons c cs ih => intro r1 r2; simp [lexLeB, ih]

/-- A smaller head decides the lexicographic comparison. -/
theorem lexLeB_cons_lt (a b : Char) (hab : a < b) (r1 r2 : List Char) :
    lexLeB (a :: r1) (b :: r2) = true := by
  have hne : a ≠ b := ne_of_lt hab
  simp [lexLeB, hne, hab]

/-- Equal heads reduce the lexicographic comparison to the tails. -/
theorem lexLeB_cons_eq (a : Char) (r1 r2 : List Char) :
    lexLeB (a :: r1) (a :: r2) = lexLeB r1 r2 := by
  simp [lexLeB]

/-- Four-digit zero-padded groups compare lexicographically like their
values (below 10000). -/
theorem lexLeB_dig4_lt (x y : Nat) (hy : y < 10000) (hxy : x < y) (r1 r2 : List Char) :
    lexLeB (dig4 x ++ r1) (dig4 y ++ r2) = true := by
  have hx : x < 10000 := lt_trans hxy hy
  have m1 : x / 1000 % 10 < 10 := Nat.mod_lt _ (by norm_num)
  have m2 : y / 1000 % 10 < 10 := Nat.mod_lt _ (by norm_num)
  have m3 : x / 100 % 10 < 10 := Nat.mod_lt _ (by norm_num)
  have m4 : y / 100 % 10 < 10 := Nat.mod_lt _ (by norm_num)
  have m5 : x / 10 % 10 < 10 := Nat.mod_lt _ (by norm_num)
  have m6 : y / 10 % 10 < 10 := Nat.mod_lt _ (by norm_num)
  have m7 : x % 10 < 10 := Nat.mod_lt _ (by norm_num)
  have m8 : y % 10 < 10 := Nat.mod_lt _ (by norm_num)
  simp only [dig4, List.cons_append, List.nil_append]
  rcases Nat.lt_trichotomy (x / 1000 % 10) (y / 1000 % 10) with h1 | h1 | h1
  · exact lexLeB_cons_lt _ _ (digitChar_lt _ _ m1 m2 h1) _ _
  · rw [h1, lexLeB_cons_eq]
    rcases Nat.lt_trichotomy (x / 100 % 10) (y / 100 % 10) with h2 | h2 | h2
    · exact lexLeB_cons_lt _ _ (digitChar_lt _ _ m3 m4 h2) _ _
    · rw [h2, lexLeB_cons_eq]
      rcases Nat.lt_trichotomy (x / 10 % 10) (y / 10 % 10) with h3 | h3 | h3
      · exact lexLeB_cons_lt _ _ (digitChar_lt _ _ m5 m6 h3) _ _
      · rw [h3, lexLeB_cons_eq]
        rcases Nat.lt_trichotomy (x % 10) (y % 10) with h4 | h4 | h4
        · exact lexLeB_cons_lt _ _ (digitChar_lt _ _ m7 m8 h4) _ _
        · omega
        · omega
      · omega
    · omega
  · omega

/-- Two-digit zero-padded groups compare lexicographically like their values
(below 100). -/
theorem lexLeB_dig2_lt (x y : Nat) (hy : y < 100) (hxy : x < y) (r1 r2 : List Char) :
    lexLeB (dig2 x ++ r1) (dig2 y ++ r2) = true := by
  have m1 : x / 10 % 10 < 10 := Nat.mod_lt _ (by norm_num)
  have m2 : y / 10 % 10 < 10 := Nat.mod_lt _ (by norm_num)
  have m3 : x % 10 < 10 := Nat.mod_lt _ (by norm_num)
  have m4 : y % 10 < 10 := Nat.mod_lt _ (by norm_num)
  simp only [dig2, List.cons_append, List.nil_append]
  rcases Nat.lt_trichotomy (x / 10 % 10) (y / 10 % 10) with h1 | h1 | h1
  · exact lexLeB_cons_lt _ _ (digitChar_lt _ _ m1 m2 h1) _ _
  · rw [h1, lexLeB_cons_eq]
    rcases Nat.lt_trichotomy (x % 10) (y % 10) with h2 | h2 | h2
    · exact lexLeB_cons_lt _ _ (digitChar_lt _ _ m3 m4 h2) _ _
    · omega
    · omega
  · omega

/-- No month has more than 31 days. -/
theorem daysInMonth_le31 (y m : Nat) : daysInMonth y m ≤ 31 := by
  unfold daysInMonth
  repeat' split
  all_goals omega

/-- ISO date strings of valid dates are lexicographically ordered like the
dates themselves. -/
theorem strLeB_iso (d1 d2 : PyDate) (h1 : validDate d1 = true) (h2 : validDate d2 = true)
    (hk : dateKey d1 ≤ dateKey d2) :
    strLeB (isoDateStr d1) (isoDateStr d2) = true := by
  obtain ⟨y1, m1, dd1⟩ := d1
  obtain ⟨y2, m2, dd2⟩ := d2
  simp only [validDate, Bool.and_eq_true, decide_eq_true_eq] at h1 h2
  obtain ⟨⟨⟨⟨⟨hy11, hy12⟩, hm11⟩, hm12⟩, hdd11⟩, hdd12⟩ := h1
  obtain ⟨⟨⟨⟨⟨hy21, hy22⟩, hm21⟩, hm22⟩, hdd21⟩, hdd22⟩ := h2
  have hb1 : dd1 ≤ 31 := le_trans hdd12 (daysInMonth_le31 y1 m1)
  have hb2 : dd2 ≤ 31 := le_trans hdd22 (daysInMonth_le31 y2 m2)
  simp only [dateKey] at hk
  show lexLeB (dig4 y1 ++ ('-' :: (dig2 m1 ++ ('-' :: dig2 dd1))))
      (dig4 y2 ++ ('-' :: (dig2 m2 ++ ('-' :: dig2 dd2)))) = true
  rcases Nat.lt_trichotomy y1 y2 with hy | hy | hy
  · exact lexLeB_dig4_lt y1 y2 (by omega) hy _ _
  · subst hy
    rw [lexLeB_append_same, lexLeB_cons_eq]
    rcases Nat.lt_trichotomy m1 m2 with hm | hm | hm
    · exact lexLeB_dig2_lt m1 m2 (by omega) hm _ _
    · subst hm
      rw [lexLeB_append_same, lexLeB_cons_eq]
      rcases Nat.lt_trichotomy dd1 dd2 with hd | hd | hd
      · exact lexLeB_dig2_lt dd1 dd2 (by omega) hd _ _
      · subst hd
        exact lexLeB_refl _
      · omega
    · omega
  · omega

/-- Rendering `str(date)` of a valid Python date gives a valid ISO calendar date
string. -/
theorem isoDateStr_valid (d : PyDate) (h : validDate d = true) :
    isValidISODateStr (isoDateStr d) = true := by
  obtain ⟨y, m, dd⟩ := d
  have hvd := h
  simp only [validDate, Bool.and_eq_true, decide_eq_true_eq] at h
  obtain ⟨⟨⟨⟨⟨hy1, hy2⟩, hm1⟩, hm2⟩, hd1⟩, hd2⟩ := h
  have hb : dd ≤ 31 := le_trans hd2 (daysInMonth_le31 y m)
  have m1lt : y / 1000 % 10 < 10 := Nat.mod_lt _ (by norm_num)
  have m2lt : y / 100 % 10 < 10 := Nat.mod_lt _ (by norm_num)
  have m3lt : y / 10 % 10 < 10 := Nat.mod_lt _ (by norm_num)
  have m4lt : y % 10 < 10 := Nat.mod_lt _ (by norm_num)
  have m5lt : m / 10 % 10 < 10 := Nat.mod_lt _ (by norm_num)
  have m6lt : m % 10 < 10 := Nat.mod_lt _ (by norm_num)
  have m7lt : dd / 10 % 10 < 10 := Nat.mod_lt _ (by norm_num)
  have m8lt : dd % 10 < 10 := Nat.mod_lt _ (by norm_num)
  show isValidISODateStr (String.mk (isoDateChars ⟨y, m, dd⟩)) = true
  simp only [isValidISODateStr, isoDateChars]
  simp only [Bool.and_eq_true, decide_eq_true_eq]
  refine ⟨⟨⟨⟨⟨⟨⟨⟨⟨⟨trivial, trivial⟩, digitChar_isDigit _ m1lt⟩, digitChar_isDigit _ m2lt⟩,
    digitChar_isDigit _ m3lt⟩, digitChar_isDigit _ m4lt⟩, digitChar_isDigit _ m5lt⟩,
    digitChar_isDigit _ m6lt⟩, digitChar_isDigit _ m7lt⟩, digitChar_isDigit _ m8lt⟩, ?_⟩
  rw [digitVal_digitChar _ m1lt, digitVal_digitChar _ m2lt, digitVal_digitChar _ m3lt,
    digitVal_digitChar _ m4lt, digitVal_digitChar _ m5lt, digitVal_digitChar _ m6lt,
    digitVal_digitChar _ m7lt, digitVal_digitChar _ m8lt]
  have hy' : y / 1000 % 10 * 1000 + y / 100 % 10 * 100 + y / 10 % 10 * 10 + y % 10 = y := by
    omega
  have hm' : m / 10 % 10 * 10 + m % 10 = m := by omega
  have hd' : dd / 10 % 10 * 10 + dd % 10 = dd := by omega
  rw [hy', hm', hd']
  exact hvd

/-- Rounding via `round(x, 2)` yields an integer number of hundredths. -/
theorem pyRound2_hundredths (q : ℚ) : (pyRound2 q * 100).den = 1 := by
  unfold pyRound2
  rw [div_mul_cancel₀]
  · exact Rat.den_intCast _
  · norm_num

/-- The history projection of chronologically ordered rows with valid dates
has its ISO date strings in non-decreasing lexicographic order. -/
theorem chain_histProj : ∀ (hs : List Row),
    (∀ r ∈ hs, validDate r.date = true) →
    List.Chain' (fun r s => dateKey r.date ≤ dateKey s.date) hs →
    List.Chain' (fun p q : String × ℚ => strLeB p.1 q.1 = true) (histProj hs) := by
  intro hs
  induction hs with
  | nil =>
    intro _ _
    simp [histProj]
  | cons r rest ih =>
    intro hv hc
    cases rest with
    | nil => simp [histProj]
    | cons r2 rest2 =>
      simp only [histProj, List.map_cons]
      refine List.chain'_cons.mpr ⟨?_, ?_⟩
      · exact strLeB_iso _ _ (hv r (by simp)) (hv r2 (by simp)) (List.chain'_cons.mp hc).1
      · have := ih (fun x hx => hv x (List.mem_cons_of_mem _ hx)) (List.chain'_cons.mp hc).2
        simpa [histProj] using this

/-- Claim C7 (confirmed, on the exact-rational model of prices): every entry
of the historical projection pairs a valid ISO calendar date string with a
price rounded to exactly two decimals, there is one entry per source row
(trading day), and for chronologically ordered source rows the projected
sequence is non-decreasing in date order. -/
theorem C7_thm (hs : List Row)
    (hvalid : ∀ r ∈ hs, validDate r.date = true)
    (hchron : List.Chain' (fun r s => dateKey r.date ≤ dateKey s.date) hs) :
    (histProj hs).length = hs.length ∧
    (∀ p ∈ histProj hs, isValidISODateStr p.1 = true ∧ (p.2 * 100).den = 1) ∧
    List.Chain' (fun p q : String × ℚ => strLeB p.1 q.1 = true) (histProj hs) := by
  refine ⟨by simp [histProj], ?_, chain_histProj hs hvalid hchron⟩
  intro p hp
  simp only [histProj] at hp
  rcases List.mem_map.mp hp with ⟨r, hr, rfl⟩
  exact ⟨isoDateStr_valid _ (hvalid r hr), pyRound2_hundredths _⟩

/-- Witness for claim C7 on a concrete two-day window. -/
theorem C7_witness :
    (histProj histW).length = histW.length ∧
    (∀ p ∈ histProj histW, isValidISODateStr p.1 = true ∧ (p.2 * 100).den = 1) ∧
    List.Chain' (fun p q : String × ℚ => strLeB p.1 q.1 = true) (histProj histW) :=
  C7_thm histW (by decide)
    (by
      simp only [histW, List.chain'_cons, List.chain'_singleton, and_true]
      decide)
